import Mathlib

/-!
Verification of the NERF (Natural Extension Reference Frame) protein-backbone
chain builder and its companion routines, shallowly embedded from
`foldingdiff/nerf.py`, `protdiff/angles_to_coords.py` and
`protdiff/sampling.py`.

Machine floating-point arithmetic is modelled by exact real arithmetic; the
possibly-NaN values flowing out of the structural-biology library in
`angles_to_coords.py` are modelled by `Option ℝ` with `none` standing for NaN.
Fallible operations (python `IndexError`, failed `assert`) are modelled by
`Option`-valued results, `none` standing for the raised error.

The file is organised as definitions first (the embedding of the source),
then the theorems about them.
-/

open Real

noncomputable section

/-! ## Data model: vectors and matrices -/

/-- A 3-dimensional real vector, the model of a 1-d numpy array / torch tensor
of size 3 (an atom coordinate). -/
structure Vec3 where
  x : ℝ
  y : ℝ
  z : ℝ

namespace Vec3

instance : Zero Vec3 := ⟨⟨0, 0, 0⟩⟩

instance : Add Vec3 := ⟨fun v w => ⟨v.x + w.x, v.y + w.y, v.z + w.z⟩⟩

instance : Sub Vec3 := ⟨fun v w => ⟨v.x - w.x, v.y - w.y, v.z - w.z⟩⟩

instance : Neg Vec3 := ⟨fun v => ⟨-v.x, -v.y, -v.z⟩⟩

instance : SMul ℝ Vec3 := ⟨fun r v => ⟨r * v.x, r * v.y, r * v.z⟩⟩

/-- Euclidean dot product. -/
def dot (v w : Vec3) : ℝ := v.x * w.x + v.y * w.y + v.z * w.z

/-- Euclidean norm: model of `np.linalg.norm` / `torch.linalg.norm` on a
3-vector. -/
def norm (v : Vec3) : ℝ := Real.sqrt (dot v v)

/-- Cross product: model of `np.cross` / `torch.cross` on 3-vectors. -/
def cross (v w : Vec3) : Vec3 :=
  ⟨v.y * w.z - v.z * w.y, v.z * w.x - v.x * w.z, v.x * w.y - v.y * w.x⟩

/-- Model of the `unit_vec` lambda `x / np.linalg.norm(x)` in `place_dihedral`.
Division by a zero norm is total in this model (yielding `0`); the degenerate
case is excluded by the non-collinearity hypotheses of the theorems. -/
def unitVec (v : Vec3) : Vec3 := (1 / norm v) • v

end Vec3

/-- A 3x3 real matrix given by its three rows: the model of the 2-d arrays
appearing in `place_dihedral`. -/
structure Mat3 where
  r1 : Vec3
  r2 : Vec3
  r3 : Vec3

namespace Mat3

/-- Model of `np.stack([bc, nbc, n])` / `torch.stack([bc, nbc, n])`: the 3x3
array whose rows are the three given vectors. -/
def stackRows (a b c : Vec3) : Mat3 := ⟨a, b, c⟩

/-- Matrix transpose, the `.T` in `m = stack([bc, nbc, n]).T`. -/
def transpose (m : Mat3) : Mat3 :=
  ⟨⟨m.r1.x, m.r2.x, m.r3.x⟩, ⟨m.r1.y, m.r2.y, m.r3.y⟩, ⟨m.r1.z, m.r2.z, m.r3.z⟩⟩

/-- Matrix-vector product: model of `m.dot(d)` for a 2-d `m` and 1-d `d`. -/
def mulVec (m : Mat3) (v : Vec3) : Vec3 :=
  ⟨Vec3.dot m.r1 v, Vec3.dot m.r2 v, Vec3.dot m.r3 v⟩

/-- Model of `torch.mm(m, d).squeeze()` where `d` is the 3x1 column
`torch.vstack([d1, d2, d3])`: multiply `m` by the column and flatten back to a
1-d vector. -/
def mmColSqueeze (m : Mat3) (d1 d2 d3 : ℝ) : Vec3 :=
  mulVec m ⟨d1, d2, d3⟩

end Mat3

/-! ## The dihedral placement primitive (`place_dihedral`, nerf.py lines
131-188)

The python function has two branches selected by `use_torch`; both are
embedded below, each following its own branch of the source, and proved to
agree. Shape manipulation that is the identity on the mathematical value
(`ensure_tensor`, `.type(m.dtype)`) is dropped. -/

/-- Embedding of `place_dihedral` with `use_torch=False` (the numpy branch):
place the point `d` such that the bond angle, length and torsion angle are
satisfied with the series `a, b, c, d`. Argument order of the scalars follows
the keyword order used at the call sites (`bond_angle`, `bond_length`,
`torsion_angle`). -/
def place_dihedral (a b c : Vec3) (bond_angle bond_length torsion_angle : ℝ) : Vec3 :=
  let ab := b - a
  let bc := Vec3.unitVec (c - b)
  let n := Vec3.unitVec (Vec3.cross ab bc)
  let nbc := Vec3.cross n bc
  let m := Mat3.transpose (Mat3.stackRows bc nbc n)
  let d : Vec3 :=
    ⟨-bond_length * Real.cos bond_angle,
      bond_length * Real.cos torsion_angle * Real.sin bond_angle,
      bond_length * Real.sin torsion_angle * Real.sin bond_angle⟩
  Mat3.mulVec m d + c

/-- Embedding of `place_dihedral` with `use_torch=True` (the torch branch): the
same frame construction, with the offset built as a 3x1 column via
`torch.vstack` and applied by `torch.mm(m, d).squeeze()`. -/
def place_dihedral_torch (a b c : Vec3) (bond_angle bond_length torsion_angle : ℝ) : Vec3 :=
  let ab := b - a
  let bc := Vec3.unitVec (c - b)
  let n := Vec3.unitVec (Vec3.cross ab bc)
  let nbc := Vec3.cross n bc
  let m := Mat3.transpose (Mat3.stackRows bc nbc n)
  let d := Mat3.mmColSqueeze m
    (-bond_length * Real.cos bond_angle)
    (bond_length * Real.cos torsion_angle * Real.sin bond_angle)
    (bond_length * Real.sin torsion_angle * Real.sin bond_angle)
  d + c

/-- Non-collinearity of three points, characterised by a non-vanishing cross
product of the two edge vectors — exactly the condition under which the local
frame built by `place_dihedral` is well defined. -/
def NonCollinear (a b c : Vec3) : Prop := Vec3.cross (b - a) (c - b) ≠ 0

/-! ## The chain builder (`NERFBuilder`, nerf.py lines 27-128) -/

/-- Default N-CA bond length (nerf.py line 17). -/
def N_CA_LENGTH : ℝ := 1.46

/-- Default CA-C bond length (nerf.py line 18). -/
def CA_C_LENGTH : ℝ := 1.54

/-- Default C-N bond length (nerf.py line 19). -/
def C_N_LENGTH : ℝ := 1.34

/-- Initial N coordinate, taken from 1CRN (nerf.py line 22). -/
def N_INIT : Vec3 := ⟨17.047, 14.099, 3.625⟩

/-- Initial CA coordinate, taken from 1CRN (nerf.py line 23). -/
def CA_INIT : Vec3 := ⟨16.967, 12.784, 4.338⟩

/-- Initial C coordinate, taken from 1CRN (nerf.py line 24). -/
def C_INIT : Vec3 := ⟨15.685, 12.755, 5.133⟩

/-- A bond-table entry: either a single float applied uniformly, or a
per-residue indexed array (`Union[float, np.ndarray]` in the source). -/
inductive BondParam where
  | scalar (v : ℝ)
  | perResidue (l : List ℝ)

/-- Model of `_get_bond_length` / `_get_bond_angle` (nerf.py lines 116-128): a
scalar is returned unchanged for every index, a per-residue array is indexed
directly; an out-of-range index raises python `IndexError`, modelled by
`none`. -/
def BondParam.get : BondParam → Nat → Option ℝ
  | .scalar v, _ => some v
  | .perResidue l, i => l.get? i

/-- The `NERFBuilder` constructor state (nerf.py lines 32-76): the three
torsion arrays as supplied (1-d lists of reals; the `.squeeze()` of lines
54-56 — which collapses a length-1 array to a 0-d scalar so that slicing it
later raises — is modelled at the slicing site, see `sliceTail`), the bond
length and bond angle tables keyed by the three backbone bonds in their
insertion order `(C,N), (N,CA), (CA,C)`, and the three seed coordinates. The
constructor asserts exactly three 3-dimensional initial coordinates; the
structure records the post-assertion state, so the seeds are three `Vec3`
fields. Field defaults are the python keyword defaults. -/
structure NERFBuilder where
  phi : List ℝ
  psi : List ℝ
  omega : List ℝ
  bond_len_c_n : BondParam := .scalar C_N_LENGTH
  bond_len_n_ca : BondParam := .scalar N_CA_LENGTH
  bond_len_ca_c : BondParam := .scalar CA_C_LENGTH
  bond_angle_c_n : BondParam := .scalar (115 / 180 * Real.pi)
  bond_angle_n_ca : BondParam := .scalar (121 / 180 * Real.pi)
  bond_angle_ca_c : BondParam := .scalar (109 / 180 * Real.pi)
  n_init : Vec3 := N_INIT
  ca_init : Vec3 := CA_INIT
  c_init : Vec3 := C_INIT

/-- One `place_dihedral` call of the build loop (nerf.py lines 95-104). The
chain state is kept most-recent-first, so `retval[-1], retval[-2], retval[-3]`
are the first three entries and `retval.append(coords)` is cons. The bond
table lookups may fail (`none`). The placement function is a parameter because
the numpy and torch modes share these source lines, differing only in the
`use_torch` flag passed down to `place_dihedral`. -/
def placeOne (place : Vec3 → Vec3 → Vec3 → ℝ → ℝ → ℝ → Vec3)
    (blen bang : BondParam) (i : Nat) (dih : ℝ) :
    List Vec3 → Option (List Vec3)
  | c :: b :: a :: rest => do
      let angle ← bang.get i
      let len ← blen.get i
      some (place a b c angle len dih :: c :: b :: a :: rest)
  | _ => none

/-- One iteration of the residue loop (nerf.py lines 90-104): the bond table
keys are traversed in insertion order `(C,N), (N,CA), (CA,C)`, zipped with the
torsion values `[psi, omega, phi]`. -/
def residueStep (place : Vec3 → Vec3 → Vec3 → ℝ → ℝ → ℝ → Vec3)
    (nb : NERFBuilder) (i : Nat) (phi psi omega : ℝ)
    (state : List Vec3) : Option (List Vec3) := do
  let s1 ← placeOne place nb.bond_len_c_n nb.bond_angle_c_n i psi state
  let s2 ← placeOne place nb.bond_len_n_ca nb.bond_angle_n_ca i omega s1
  placeOne place nb.bond_len_ca_c nb.bond_angle_ca_c i phi s2

/-- The constructor stores `self.phi = phi_dihedrals.squeeze()` (nerf.py lines
54-56). `squeeze` collapses a 1-d array of length exactly 1 to a
0-dimensional scalar — and slicing a 0-d array or tensor raises `IndexError`.
`sliceTail` is `self.phi[1:]` applied to the squeezed array: `none` for a
length-1 input (the 0-d case), the ordinary tail slice otherwise (length 0 and
length ≥ 2 arrays are unchanged by the squeeze). -/
def sliceTail (l : List ℝ) : Option (List ℝ) :=
  match l with
  | [_] => none
  | _ => some (l.drop 1)

/-- `self.psi[:-1]` (and `self.omega[:-1]`) applied to the squeezed array:
`none` for a length-1 input (squeezed to 0-d, slice raises), the ordinary
`[:-1]` slice otherwise. -/
def sliceDropLast (l : List ℝ) : Option (List ℝ) :=
  match l with
  | [_] => none
  | _ => some l.dropLast

/-- The value of `zip(self.phi[1:], self.psi[:-1], self.omega[:-1])` in the
non-degenerate case where every slice succeeds (no torsion array was squeezed
to 0-d): python `zip` silently truncates to the shortest of its inputs.
`sliceTriples` below produces exactly this list whenever it succeeds. -/
def dihedralTriples (nb : NERFBuilder) : List (ℝ × ℝ × ℝ) :=
  (nb.phi.drop 1).zip ((nb.psi.dropLast).zip (nb.omega.dropLast))

/-- The fallible construction of the zipped torsion triples at nerf.py line
88: each slice raises `IndexError` (`none`) on a torsion array that
`squeeze()` collapsed to 0-d (python evaluates the three slices left to
right); otherwise the zip truncates to the shortest input. -/
def sliceTriples (nb : NERFBuilder) : Option (List (ℝ × ℝ × ℝ)) := do
  let p ← sliceTail nb.phi
  let q ← sliceDropLast nb.psi
  let w ← sliceDropLast nb.omega
  some (p.zip (q.zip w))

/-- The `for i, (phi, psi, omega) in enumerate(...)` loop of
`cartesian_coords`, with `i` the enumeration counter. -/
def buildLoop (place : Vec3 → Vec3 → Vec3 → ℝ → ℝ → ℝ → Vec3)
    (nb : NERFBuilder) :
    Nat → List (ℝ × ℝ × ℝ) → List Vec3 → Option (List Vec3)
  | _, [], state => some state
  | i, (phi, psi, omega) :: rest, state => do
      let s ← residueStep place nb i phi psi omega state
      buildLoop place nb (i + 1) rest s

/-- `NERFBuilder.cartesian_coords` (nerf.py lines 78-108) in plain-numpy mode:
seed the (most-recent-first) state with the reversal of
`[n_init, ca_init, c_init]`, build the zipped torsion slices (which raise on a
torsion array squeezed to 0-d), run the loop, and return the chain in
placement order. -/
def NERFBuilder.cartesian_coords (nb : NERFBuilder) : Option (List Vec3) := do
  let ts ← sliceTriples nb
  let out ← buildLoop place_dihedral nb 0 ts [nb.c_init, nb.ca_init, nb.n_init]
  some out.reverse

/-- `NERFBuilder.cartesian_coords` with `use_torch=True`: identical control
flow with the torch placement primitive (the `torch.tensor` conversions and
`torch.stack` are the identity on the numeric values; slicing a 0-d torch
tensor raises just as for numpy). -/
def NERFBuilder.cartesian_coords_torch (nb : NERFBuilder) : Option (List Vec3) := do
  let ts ← sliceTriples nb
  let out ← buildLoop place_dihedral_torch nb 0 ts [nb.c_init, nb.ca_init, nb.n_init]
  some out.reverse

/-- Sum of a list of vectors. -/
def vsum (l : List Vec3) : Vec3 := l.foldr (· + ·) 0

/-- Per-axis mean (`self.cartesian_coords.mean(axis=0)`) as a vector; division
by a zero count is total in the reals model. -/
def centroid (l : List Vec3) : Vec3 := (1 / (l.length : ℝ)) • vsum l

/-- `NERFBuilder.centered_cartesian_coords` (nerf.py lines 110-114):
`self.cartesian_coords - means`, numpy broadcasting subtracting the row mean
from every row. -/
def NERFBuilder.centered_cartesian_coords (nb : NERFBuilder) : Option (List Vec3) :=
  nb.cartesian_coords.map (fun l => l.map (fun v => v - centroid l))

/-- The state of a builder whose six bond-table entries are all scalar — the
situation of the default constructor arguments. -/
def ScalarTables (nb : NERFBuilder) : Prop :=
  (∃ v, nb.bond_len_c_n = .scalar v) ∧ (∃ v, nb.bond_len_n_ca = .scalar v) ∧
  (∃ v, nb.bond_len_ca_c = .scalar v) ∧ (∃ v, nb.bond_angle_c_n = .scalar v) ∧
  (∃ v, nb.bond_angle_n_ca = .scalar v) ∧ (∃ v, nb.bond_angle_ca_c = .scalar v)

/-! ## Internal-coordinate extraction (`canonical_distances_and_dihedrals`,
angles_to_coords.py lines 60-124)

Floating values that may be NaN are modelled by `Option ℝ`, `none` standing
for NaN. -/

/-- A possibly-NaN float: `none` models NaN. -/
abbrev FloatVal := Option ℝ

/-- `np.nan_to_num` on one entry: NaN is replaced by `0` (the source comment:
"Replace nan with 0 and info with large num"); every result is a defined
number. -/
def nanToNum (v : FloatVal) : FloatVal := some (v.getD 0)

/-- The internal-coordinate values the structural-biology library reports for
one residue: the queried bond distances (`ric.get_length(d)`) and angles
(`ric.get_angle(a)`, in degrees), with NaN (`none`) at the slots that are
undefined for this residue — e.g. phi of the first residue and psi/omega of
the last. -/
structure ResidueIC where
  dists : List FloatVal
  angs : List FloatVal

open Classical in
/-- Lines 104-116 of angles_to_coords.py for one residue: degree-to-radian
conversion of the angles when `use_radians` (NaN propagates through
`/ 180 * np.pi`, and the non-NaN mask is unaffected by the conversion), the
range assertion over the non-NaN angles (`none` models the AssertionError),
and the concatenated row `np.concatenate((this_dists, this_angles))`. -/
def residueRow (use_radians : Bool) (ric : ResidueIC) : Option (List FloatVal) :=
  let this_angles :=
    if use_radians then ric.angs.map (fun a => a.map (fun d => d / 180 * Real.pi))
    else ric.angs
  let ok :=
    if use_radians then ∀ a ∈ this_angles, ∀ v ∈ a, -Real.pi ≤ v ∧ v ≤ Real.pi
    else ∀ a ∈ this_angles, ∀ v ∈ a, -(180 : ℝ) ≤ v ∧ v ≤ 180
  if ok then some (ric.dists ++ this_angles) else none

/-- The `values` accumulation loop of lines 102-116: one row per residue in
order; an AssertionError inside any iteration propagates out of the whole
call. -/
def collectRows (use_radians : Bool) : List ResidueIC → Option (List (List FloatVal))
  | [] => some []
  | r :: rs => do
      let row ← residueRow use_radians r
      let rest ← collectRows use_radians rs
      some (row :: rest)

/-- Embedding of `canonical_distances_and_dihedrals` (angles_to_coords.py
lines 60-124). Parsing and internal-coordinate computation are delegated to
the external structural-biology library; its outcome enters as `multi_chain`
(`len(chains) > 1`), `rebuild_ok` (`structure_rebuild_test(chain)["pass"]`)
and the per-residue values `residues`. Either library failure path returns
`None`; otherwise every residue row is the queried distances followed by the
angles (radians when `use_radians`), and `np.nan_to_num(retval, copy=False)`
replaces every NaN entry by `0` before the table is returned. -/
def canonical_distances_and_dihedrals (multi_chain rebuild_ok use_radians : Bool)
    (residues : List ResidueIC) : Option (List (List FloatVal)) :=
  if multi_chain then none
  else if !rebuild_ok then none
  else do
    let values ← collectRows use_radians residues
    some (values.map (fun row => row.map nanToNum))

/-! ## The sampler (`p_sample`, sampling.py lines 19-67) -/

/-- A 3-d float tensor of shape `(batch, seq_len, n_ft)`, as nested lists. -/
abbrev Tensor3 := List (List (List ℝ))

/-- Elementwise unary map on a 3-d tensor (broadcast of a scalar function). -/
def tmap (f : ℝ → ℝ) (t : Tensor3) : Tensor3 := t.map (List.map (List.map f))

/-- Elementwise binary operation of two same-shape 3-d tensors. -/
def tzip (f : ℝ → ℝ → ℝ) (s t : Tensor3) : Tensor3 :=
  List.zipWith (List.zipWith (List.zipWith f)) s t

/-- One row of the attention mask: `attn_mask[i, :l] = 1.0` over a row of
zeros of width `w` — the slice clamps `l` to the width; a row index beyond the
batch is the `none` of `attnMask`. -/
def maskRow (w : Nat) (l : Option Nat) : List ℝ :=
  match l with
  | none => List.replicate w 0
  | some len => (List.range w).map (fun j => if j < len then 1 else 0)

/-- The attention mask of `p_sample` (lines 47-50): zeros of shape
`x.shape[:2]`, then for each `i, l in enumerate(seq_lens)` the first `l`
entries of row `i` are set to one; when `seq_lens` outnumbers the batch rows
the assignment raises `IndexError` (`none`). -/
def attnMask (x : Tensor3) (seq_lens : List Nat) : Option (List (List ℝ)) :=
  if seq_lens.length ≤ x.length then
    some (List.zipWith (fun (row : List (List ℝ)) i => maskRow row.length (seq_lens.get? i))
      x (List.range x.length))
  else none

/-- Modelled from the spec: the precomputed noise-schedule quantities produced
by `beta_schedules.compute_alphas`, a module that is not among the given
sources (the spec keeps noise scheduling out of scope as an external
collaborator). `p_sample` reads exactly the three fields below, so the
schedule computation itself stays an opaque function parameter. -/
structure AlphaBetaValues where
  alphas : List ℝ
  sqrt_one_minus_alphas_cumprod : List ℝ
  posterior_variance : List ℝ

/-- Torch integer indexing into a 1-d tensor: a negative index counts from the
end, an out-of-range index raises (`none`). -/
def tIndex (l : List ℝ) (i : ℤ) : Option ℝ :=
  if 0 ≤ i then l.get? i.toNat
  else if (-i).toNat ≤ l.length then l.get? (l.length - (-i).toNat) else none

/-- Embedding of `p_sample` (sampling.py lines 19-67). The denoising network
`model` and `beta_schedules.compute_alphas` are opaque parameters (external
collaborators), and the gaussian draw `torch.randn_like(x)` is the explicit
`noise` argument. `torch.unique` sorts its output, but only its length and
sole element matter here, so `List.dedup` models it. The
`assert len(t_unique) == 1` failure is the final `none` branch; note that the
function parameter `t_index` is dead — line 40 unconditionally rebinds it to
`t_unique.item()` before any use. -/
def p_sample (compute_alphas : List ℝ → AlphaBetaValues)
    (model : Tensor3 → List ℤ → List (List ℝ) → Tensor3)
    (x : Tensor3) (t : List ℤ) (seq_lens : List Nat) (t_index : ℤ)
    (betas : List ℝ) (noise : Tensor3) : Option Tensor3 :=
  let alpha_beta_values := compute_alphas betas
  let sqrt_recip_alphas := alpha_beta_values.alphas.map (fun a => 1 / Real.sqrt a)
  match t.dedup with
  | [ti] => do
      let t_index := ti
      let sqrt_recip_alphas_t ← tIndex sqrt_recip_alphas t_index
      let betas_t ← tIndex betas t_index
      let sqrt_one_minus_alphas_cumprod_t ←
        tIndex alpha_beta_values.sqrt_one_minus_alphas_cumprod t_index
      let attn_mask ← attnMask x seq_lens
      let model_mean := tmap (fun v => sqrt_recip_alphas_t * v)
        (tzip (fun xv mv => xv - betas_t * mv / sqrt_one_minus_alphas_cumprod_t)
          x (model x t attn_mask))
      if t_index = 0 then some model_mean
      else do
        let posterior_variance_t ← tIndex alpha_beta_values.posterior_variance t_index
        some (tzip (fun mv nv => mv + Real.sqrt posterior_variance_t * nv)
          model_mean noise)
  | _ => none

/-! ## Concrete instances used by witnesses and counterexamples -/

/-- A two-residue builder with zero torsions and the default bond tables and
seeds. -/
def sampleNB2 : NERFBuilder := { phi := [0, 0], psi := [0, 0], omega := [0, 0] }

/-- A single-residue builder (n = 1). -/
def sampleNB1 : NERFBuilder := { phi := [0.5], psi := [0.25], omega := [0.125] }

/-- A three-residue builder with distinct torsion values. -/
def sampleNB3 : NERFBuilder := { phi := [1, 2, 3], psi := [4, 5, 6], omega := [7, 8, 9] }

/-- Unequal torsion lengths: phi has 3 entries, psi and omega 2 each. -/
def sampleNBUneq : NERFBuilder := { phi := [0, 0, 0], psi := [0, 0], omega := [0, 0] }

/-- A builder whose per-residue C-N bond length table is empty, hence shorter
than its one processed residue. -/
def sampleNBShort : NERFBuilder :=
  { phi := [0, 0], psi := [0, 0], omega := [0, 0], bond_len_c_n := .perResidue [] }

/-- Two-residue builders that differ exactly in the boundary torsion slots
phi[0], psi[n-1] and omega[n-1]. -/
def sampleNBBoundA : NERFBuilder := { phi := [9, 1], psi := [2, 9], omega := [3, 9] }

/-- See `sampleNBBoundA`. -/
def sampleNBBoundB : NERFBuilder := { phi := [0, 1], psi := [2, 0], omega := [3, 0] }

/-- The single-residue library output used against claim C8: phi undefined
(NaN), the other angles zero degrees, one queried distance. -/
def sampleRIC : ResidueIC := ⟨[some 1.32], [none, some 0, some 0, some 0]⟩

/-! ## Theorems: vector algebra -/

namespace Vec3

@[ext] theorem ext3 {v w : Vec3} (hx : v.x = w.x) (hy : v.y = w.y) (hz : v.z = w.z) :
    v = w := by
  cases v; cases w; simp_all

@[simp] theorem zero_x : (0 : Vec3).x = 0 := rfl
@[simp] theorem zero_y : (0 : Vec3).y = 0 := rfl
@[simp] theorem zero_z : (0 : Vec3).z = 0 := rfl
@[simp] theorem add_x (v w : Vec3) : (v + w).x = v.x + w.x := rfl
@[simp] theorem add_y (v w : Vec3) : (v + w).y = v.y + w.y := rfl
@[simp] theorem add_z (v w : Vec3) : (v + w).z = v.z + w.z := rfl
@[simp] theorem sub_x (v w : Vec3) : (v - w).x = v.x - w.x := rfl
@[simp] theorem sub_y (v w : Vec3) : (v - w).y = v.y - w.y := rfl
@[simp] theorem sub_z (v w : Vec3) : (v - w).z = v.z - w.z := rfl
@[simp] theorem smul_x (r : ℝ) (v : Vec3) : (r • v).x = r * v.x := rfl
@[simp] theorem smul_y (r : ℝ) (v : Vec3) : (r • v).y = r * v.y := rfl
@[simp] theorem smul_z (r : ℝ) (v : Vec3) : (r • v).z = r * v.z := rfl

theorem dot_nonneg (v : Vec3) : 0 ≤ dot v v := by
  have hx := sq_nonneg v.x
  have hy := sq_nonneg v.y
  have hz := sq_nonneg v.z
  simp only [dot]
  nlinarith

theorem norm_sq (v : Vec3) : norm v * norm v = dot v v :=
  Real.mul_self_sqrt (dot_nonneg v)

theorem dot_self_eq_zero_iff {v : Vec3} : dot v v = 0 ↔ v = 0 := by
  constructor
  · intro h
    have hx := sq_nonneg v.x
    have hy := sq_nonneg v.y
    have hz := sq_nonneg v.z
    simp only [dot] at h
    have hx0 : v.x = 0 := by nlinarith
    have hy0 : v.y = 0 := by nlinarith
    have hz0 : v.z = 0 := by nlinarith
    exact ext3 hx0 hy0 hz0
  · rintro rfl; simp [dot]

theorem norm_pos_of_ne_zero {v : Vec3} (h : v ≠ 0) : 0 < norm v := by
  apply Real.sqrt_pos.mpr
  rcases lt_or_eq_of_le (dot_nonneg v) with h' | h'
  · exact h'
  · exact absurd (dot_self_eq_zero_iff.mp h'.symm) h

theorem dot_unitVec_self {v : Vec3} (h : v ≠ 0) : dot (unitVec v) (unitVec v) = 1 := by
  have hpos := norm_pos_of_ne_zero h
  have hsq := norm_sq v
  simp only [unitVec, dot, smul_x, smul_y, smul_z] at *
  field_simp
  nlinarith

theorem dot_cross_left (v w : Vec3) : dot (cross v w) v = 0 := by
  simp only [dot, cross]; ring

theorem dot_cross_right (v w : Vec3) : dot (cross v w) w = 0 := by
  simp only [dot, cross]; ring

/-- Lagrange identity for the cross product, on components. -/
theorem cross_norm_sq (v w : Vec3) :
    dot (cross v w) (cross v w) = dot v v * dot w w - dot v w * dot v w := by
  simp only [dot, cross]; ring

theorem dot_smul_left (r : ℝ) (v w : Vec3) : dot (r • v) w = r * dot v w := by
  simp only [dot, smul_x, smul_y, smul_z]; ring

theorem dot_smul_right (r : ℝ) (v w : Vec3) : dot v (r • w) = r * dot v w := by
  simp only [dot, smul_x, smul_y, smul_z]; ring

theorem dot_comm (v w : Vec3) : dot v w = dot w v := by
  simp only [dot]; ring

theorem dot_add_left (u v w : Vec3) : dot (u + v) w = dot u w + dot v w := by
  simp only [dot, add_x, add_y, add_z]; ring

theorem dot_add_right (u v w : Vec3) : dot u (v + w) = dot u v + dot u w := by
  simp only [dot, add_x, add_y, add_z]; ring

theorem cross_zero_right (v : Vec3) : cross v 0 = 0 := by
  simp only [cross]; ext <;> simp

theorem cross_smul_right (r : ℝ) (v w : Vec3) : cross v (r • w) = r • cross v w := by
  simp only [cross, smul_x, smul_y, smul_z]; ext <;> simp <;> ring

theorem smul_ne_zero_vec {r : ℝ} {v : Vec3} (hr : r ≠ 0) (hv : v ≠ 0) : r • v ≠ 0 := by
  intro h
  apply hv
  have hx : r * v.x = 0 := congrArg Vec3.x h
  have hy : r * v.y = 0 := congrArg Vec3.y h
  have hz : r * v.z = 0 := congrArg Vec3.z h
  ext
  · exact (mul_eq_zero.mp hx).resolve_left hr
  · exact (mul_eq_zero.mp hy).resolve_left hr
  · exact (mul_eq_zero.mp hz).resolve_left hr

theorem add_sub_cancel_vec (v c : Vec3) : v + c - c = v := by
  ext <;> simp

end Vec3

/-- The product `(stack rows).T ⬝ v` is the linear combination of the rows with
the coefficients of `v`. -/
theorem Mat3.transpose_stackRows_mulVec (a b c v : Vec3) :
    Mat3.mulVec (Mat3.transpose (Mat3.stackRows a b c)) v =
      v.x • a + v.y • b + v.z • c := by
  simp only [Mat3.mulVec, Mat3.transpose, Mat3.stackRows, Vec3.dot]
  ext <;> simp <;> ring

/-! ## Theorems: the placement primitive -/

/-- The local offset vector of `place_dihedral` expressed in the frame
`(bc, nbc, n)`. -/
theorem place_dihedral_sub_c (a b c : Vec3) (θ L τ : ℝ) :
    place_dihedral a b c θ L τ - c =
      (-L * Real.cos θ) • Vec3.unitVec (c - b) +
      (L * Real.cos τ * Real.sin θ) •
        Vec3.cross (Vec3.unitVec (Vec3.cross (b - a) (Vec3.unitVec (c - b))))
          (Vec3.unitVec (c - b)) +
      (L * Real.sin τ * Real.sin θ) •
        Vec3.unitVec (Vec3.cross (b - a) (Vec3.unitVec (c - b))) := by
  simp only [place_dihedral]
  rw [Vec3.add_sub_cancel_vec, Mat3.transpose_stackRows_mulVec]

/-- Core geometric fact behind the bond-length invariant: for non-collinear
`a, b, c`, the point returned by `place_dihedral` lies at distance exactly
`|L|` from `c`. -/
theorem place_dihedral_norm_abs (a b c : Vec3) (θ L τ : ℝ)
    (hnc : NonCollinear a b c) :
    Vec3.norm (place_dihedral a b c θ L τ - c) = |L| := by
  have hnc' : Vec3.cross (b - a) (c - b) ≠ 0 := hnc
  have hu : c - b ≠ 0 := by
    intro h
    exact hnc' (by rw [h, Vec3.cross_zero_right])
  have hupos : 0 < Vec3.norm (c - b) := Vec3.norm_pos_of_ne_zero hu
  set bc := Vec3.unitVec (c - b) with hbcdef
  have hbc1 : Vec3.dot bc bc = 1 := Vec3.dot_unitVec_self hu
  have hcr : Vec3.cross (b - a) bc ≠ 0 := by
    rw [hbcdef, Vec3.unitVec, Vec3.cross_smul_right]
    exact Vec3.smul_ne_zero_vec (by positivity) hnc'
  set n := Vec3.unitVec (Vec3.cross (b - a) bc) with hndef
  have hn1 : Vec3.dot n n = 1 := Vec3.dot_unitVec_self hcr
  have hnbc0 : Vec3.dot n bc = 0 := by
    rw [hndef, Vec3.unitVec, Vec3.dot_smul_left, Vec3.dot_cross_right, mul_zero]
  set nbc := Vec3.cross n bc with hnbcdef
  have hnbc1 : Vec3.dot nbc nbc = 1 := by
    rw [hnbcdef, Vec3.cross_norm_sq, hn1, hbc1, hnbc0]; ring
  have hbc_nbc : Vec3.dot bc nbc = 0 := by
    rw [Vec3.dot_comm, hnbcdef, Vec3.dot_cross_right]
  have hn_nbc : Vec3.dot n nbc = 0 := by
    rw [Vec3.dot_comm, hnbcdef, Vec3.dot_cross_left]
  have hbc_n : Vec3.dot bc n = 0 := by rw [Vec3.dot_comm]; exact hnbc0
  have hnbc_bc : Vec3.dot nbc bc = 0 := by rw [Vec3.dot_comm]; exact hbc_nbc
  have hnbc_n : Vec3.dot nbc n = 0 := by rw [Vec3.dot_comm]; exact hn_nbc
  have hsub := place_dihedral_sub_c a b c θ L τ
  rw [← hbcdef, ← hndef, ← hnbcdef] at hsub
  rw [hsub]
  set r : Vec3 := (-L * Real.cos θ) • bc + (L * Real.cos τ * Real.sin θ) • nbc +
    (L * Real.sin τ * Real.sin θ) • n with hrdef
  have hdot : Vec3.dot r r = L ^ 2 := by
    rw [hrdef]
    simp only [Vec3.dot_add_left, Vec3.dot_add_right, Vec3.dot_smul_left,
      Vec3.dot_smul_right, hbc1, hnbc1, hn1, hnbc0, hbc_nbc, hn_nbc, hbc_n,
      hnbc_bc, hnbc_n]
    have hθ := Real.sin_sq_add_cos_sq θ
    have hτ := Real.sin_sq_add_cos_sq τ
    linear_combination L ^ 2 * hθ + L ^ 2 * Real.sin θ ^ 2 * hτ
  rw [Vec3.norm, hdot]
  exact Real.sqrt_sq_eq_abs L

/-- The nonnegative-length case of `place_dihedral_norm_abs`. -/
theorem place_dihedral_norm (a b c : Vec3) (θ L τ : ℝ)
    (hnc : NonCollinear a b c) (hL : 0 ≤ L) :
    Vec3.norm (place_dihedral a b c θ L τ - c) = L := by
  rw [place_dihedral_norm_abs a b c θ L τ hnc]
  exact abs_of_nonneg hL

/-! ## Theorems: the build loop -/

theorem placeOne_cons (place : Vec3 → Vec3 → Vec3 → ℝ → ℝ → ℝ → Vec3)
    (blen bang : BondParam) (i : Nat) (dih : ℝ) (a b c : Vec3) (rest : List Vec3)
    {angle len : ℝ}
    (hang : bang.get i = some angle) (hlen : blen.get i = some len) :
    placeOne place blen bang i dih (c :: b :: a :: rest) =
      some (place a b c angle len dih :: c :: b :: a :: rest) := by
  simp [placeOne, hang, hlen]

theorem placeOne_some_elim {place : Vec3 → Vec3 → Vec3 → ℝ → ℝ → ℝ → Vec3}
    {blen bang : BondParam} {i : Nat} {dih : ℝ} {state out : List Vec3}
    (h : placeOne place blen bang i dih state = some out) :
    ∃ a b c rest angle len, state = c :: b :: a :: rest ∧
      bang.get i = some angle ∧ blen.get i = some len ∧
      out = place a b c angle len dih :: state := by
  match state with
  | [] => simp [placeOne] at h
  | [c] => simp [placeOne] at h
  | [c, b] => simp [placeOne] at h
  | c :: b :: a :: rest =>
    cases hang : bang.get i with
    | none => simp [placeOne, hang] at h
    | some angle =>
      cases hlen : blen.get i with
      | none => simp [placeOne, hang, hlen] at h
      | some len =>
        rw [placeOne_cons place blen bang i dih a b c rest hang hlen] at h
        exact ⟨a, b, c, rest, angle, len, rfl, rfl, rfl,
          (Option.some_inj.mp h).symm⟩

theorem residueStep_some_elim {place : Vec3 → Vec3 → Vec3 → ℝ → ℝ → ℝ → Vec3}
    {nb : NERFBuilder} {i : Nat} {φ ψ ω : ℝ} {state out : List Vec3}
    (h : residueStep place nb i φ ψ ω state = some out) :
    out.length = state.length + 3 ∧
    (nb.bond_len_c_n.get i).isSome ∧ (nb.bond_angle_c_n.get i).isSome ∧
    (nb.bond_len_n_ca.get i).isSome ∧ (nb.bond_angle_n_ca.get i).isSome ∧
    (nb.bond_len_ca_c.get i).isSome ∧ (nb.bond_angle_ca_c.get i).isSome := by
  simp only [residueStep, Option.bind_eq_bind, Option.bind_eq_some] at h
  obtain ⟨s1, h1, s2, h2, h3⟩ := h
  obtain ⟨_, _, _, _, _, _, hst1, hang1, hlen1, hout1⟩ := placeOne_some_elim h1
  obtain ⟨_, _, _, _, _, _, hst2, hang2, hlen2, hout2⟩ := placeOne_some_elim h2
  obtain ⟨_, _, _, _, _, _, hst3, hang3, hlen3, hout3⟩ := placeOne_some_elim h3
  refine ⟨?_, ?_, ?_, ?_, ?_, ?_, ?_⟩
  · subst hout1 hout2 hout3; simp
  · exact Option.isSome_iff_exists.mpr ⟨_, hlen1⟩
  · exact Option.isSome_iff_exists.mpr ⟨_, hang1⟩
  · exact Option.isSome_iff_exists.mpr ⟨_, hlen2⟩
  · exact Option.isSome_iff_exists.mpr ⟨_, hang2⟩
  · exact Option.isSome_iff_exists.mpr ⟨_, hlen3⟩
  · exact Option.isSome_iff_exists.mpr ⟨_, hang3⟩

theorem buildLoop_length {place : Vec3 → Vec3 → Vec3 → ℝ → ℝ → ℝ → Vec3}
    {nb : NERFBuilder} :
    ∀ (k : Nat) (ts : List (ℝ × ℝ × ℝ)) (state out : List Vec3),
      buildLoop place nb k ts state = some out →
      out.length = state.length + 3 * ts.length
  | _, [], state, out, h => by
    simp only [buildLoop, Option.some_inj] at h
    simp [← h]
  | k, (φ, ψ, ω) :: rest, state, out, h => by
    simp only [buildLoop, Option.bind_eq_bind, Option.bind_eq_some] at h
    obtain ⟨s, hs, hrec⟩ := h
    have h1 := (residueStep_some_elim hs).1
    have h2 := buildLoop_length (k + 1) rest s out hrec
    simp only [List.length_cons]
    omega

theorem buildLoop_some_lookups {place : Vec3 → Vec3 → Vec3 → ℝ → ℝ → ℝ → Vec3}
    {nb : NERFBuilder} :
    ∀ (k : Nat) (ts : List (ℝ × ℝ × ℝ)) (state out : List Vec3),
      buildLoop place nb k ts state = some out →
      ∀ j, j < ts.length →
        (nb.bond_len_c_n.get (k + j)).isSome ∧
        (nb.bond_angle_c_n.get (k + j)).isSome ∧
        (nb.bond_len_n_ca.get (k + j)).isSome ∧
        (nb.bond_angle_n_ca.get (k + j)).isSome ∧
        (nb.bond_len_ca_c.get (k + j)).isSome ∧
        (nb.bond_angle_ca_c.get (k + j)).isSome
  | _, [], _, _, _, j, hj => absurd hj (by simp)
  | k, (φ, ψ, ω) :: rest, state, out, h, j, hj => by
    simp only [buildLoop, Option.bind_eq_bind, Option.bind_eq_some] at h
    obtain ⟨s, hs, hrec⟩ := h
    match j with
    | 0 =>
      obtain ⟨-, h1, h2, h3, h4, h5, h6⟩ := residueStep_some_elim hs
      exact ⟨h1, h2, h3, h4, h5, h6⟩
    | j + 1 =>
      have := buildLoop_some_lookups (k + 1) rest s out hrec j
        (by simpa using Nat.lt_of_succ_lt_succ hj)
      have heq : k + 1 + j = k + (j + 1) := by omega
      rw [heq] at this
      exact this

theorem buildLoop_scalar_some {place : Vec3 → Vec3 → Vec3 → ℝ → ℝ → ℝ → Vec3}
    {nb : NERFBuilder} (hs : ScalarTables nb) :
    ∀ (k : Nat) (ts : List (ℝ × ℝ × ℝ)) (state : List Vec3), 3 ≤ state.length →
      ∃ out, buildLoop place nb k ts state = some out ∧
        out.length = state.length + 3 * ts.length
  | _, [], state, _ => ⟨state, rfl, by simp⟩
  | k, (φ, ψ, ω) :: rest, [], hlen => absurd hlen (by simp)
  | k, (φ, ψ, ω) :: rest, [c], hlen => absurd hlen (by simp)
  | k, (φ, ψ, ω) :: rest, [c, b], hlen => absurd hlen (by simp)
  | k, (φ, ψ, ω) :: rest, c :: b :: a :: rest', _ => by
    obtain ⟨v1, hv1⟩ := hs.1
    obtain ⟨v2, hv2⟩ := hs.2.1
    obtain ⟨v3, hv3⟩ := hs.2.2.1
    obtain ⟨w1, hw1⟩ := hs.2.2.2.1
    obtain ⟨w2, hw2⟩ := hs.2.2.2.2.1
    obtain ⟨w3, hw3⟩ := hs.2.2.2.2.2
    have hstep : residueStep place nb k φ ψ ω (c :: b :: a :: rest') =
        some (place c (place a b c w1 v1 ψ)
            (place b c (place a b c w1 v1 ψ) w2 v2 ω) w3 v3 φ ::
          place b c (place a b c w1 v1 ψ) w2 v2 ω ::
          place a b c w1 v1 ψ :: c :: b :: a :: rest') := by
      simp only [residueStep]
      rw [placeOne_cons place _ _ k ψ a b c rest'
          (by rw [hw1]; rfl) (by rw [hv1]; rfl)]
      simp only [Option.bind_eq_bind, Option.some_bind]
      rw [placeOne_cons place _ _ k ω b c _ (a :: rest')
          (by rw [hw2]; rfl) (by rw [hv2]; rfl)]
      simp only [Option.some_bind]
      rw [placeOne_cons place _ _ k φ c _ _ (b :: a :: rest')
          (by rw [hw3]; rfl) (by rw [hv3]; rfl)]
    obtain ⟨out, hout, hlen'⟩ := buildLoop_scalar_some hs (k + 1) rest
      (place c (place a b c w1 v1 ψ)
          (place b c (place a b c w1 v1 ψ) w2 v2 ω) w3 v3 φ ::
        place b c (place a b c w1 v1 ψ) w2 v2 ω ::
        place a b c w1 v1 ψ :: c :: b :: a :: rest') (by simp)
    refine ⟨out, ?_, ?_⟩
    · simp only [buildLoop, Option.bind_eq_bind, hstep, Option.some_bind]
      exact hout
    · simp only [List.length_cons] at hlen' ⊢
      omega

theorem dihedralTriples_length (nb : NERFBuilder) :
    (dihedralTriples nb).length =
      min (nb.phi.length - 1) (min (nb.psi.length - 1) (nb.omega.length - 1)) := by
  simp [dihedralTriples]

theorem sliceTail_of_length_ne_one {l : List ℝ} (h : l.length ≠ 1) :
    sliceTail l = some (l.drop 1) := by
  match l with
  | [] => rfl
  | [x] => exact absurd rfl h
  | x :: y :: t => rfl

theorem sliceTail_of_length_one {l : List ℝ} (h : l.length = 1) :
    sliceTail l = none := by
  match l with
  | [] => simp at h
  | [x] => rfl
  | x :: y :: t => simp only [List.length_cons] at h; omega

theorem sliceTail_some_val {l p : List ℝ} (h : sliceTail l = some p) :
    p = l.drop 1 := by
  match l with
  | [] => exact (Option.some_inj.mp h).symm
  | [x] => exact absurd h (by simp [sliceTail])
  | x :: y :: t => exact (Option.some_inj.mp h).symm

theorem sliceDropLast_of_length_ne_one {l : List ℝ} (h : l.length ≠ 1) :
    sliceDropLast l = some l.dropLast := by
  match l with
  | [] => rfl
  | [x] => exact absurd rfl h
  | x :: y :: t => rfl

theorem sliceDropLast_of_length_one {l : List ℝ} (h : l.length = 1) :
    sliceDropLast l = none := by
  match l with
  | [] => simp at h
  | [x] => rfl
  | x :: y :: t => simp only [List.length_cons] at h; omega

theorem sliceDropLast_some_val {l p : List ℝ} (h : sliceDropLast l = some p) :
    p = l.dropLast := by
  match l with
  | [] => exact (Option.some_inj.mp h).symm
  | [x] => exact absurd h (by simp [sliceDropLast])
  | x :: y :: t => exact (Option.some_inj.mp h).symm

theorem sliceTriples_of_lengths {nb : NERFBuilder}
    (h1 : nb.phi.length ≠ 1) (h2 : nb.psi.length ≠ 1) (h3 : nb.omega.length ≠ 1) :
    sliceTriples nb = some (dihedralTriples nb) := by
  simp only [sliceTriples, sliceTail_of_length_ne_one h1,
    sliceDropLast_of_length_ne_one h2, sliceDropLast_of_length_ne_one h3,
    Option.bind_eq_bind, Option.some_bind, dihedralTriples]

theorem sliceTriples_some_elim {nb : NERFBuilder} {ts : List (ℝ × ℝ × ℝ)}
    (h : sliceTriples nb = some ts) : ts = dihedralTriples nb := by
  simp only [sliceTriples, Option.bind_eq_bind, Option.bind_eq_some,
    Option.some_inj] at h
  obtain ⟨p, hp, q, hq, w, hw, hts⟩ := h
  rw [← hts, sliceTail_some_val hp, sliceDropLast_some_val hq,
    sliceDropLast_some_val hw, dihedralTriples]

theorem cartesian_length {nb : NERFBuilder} {l : List Vec3}
    (h : nb.cartesian_coords = some l) :
    l.length = 3 + 3 * (dihedralTriples nb).length := by
  simp only [NERFBuilder.cartesian_coords, Option.bind_eq_bind,
    Option.bind_eq_some, Option.some_inj] at h
  obtain ⟨ts, hts, out, hout, hl⟩ := h
  obtain rfl := sliceTriples_some_elim hts
  have hlen := buildLoop_length 0 (dihedralTriples nb) _ out hout
  rw [← hl]
  simp only [List.length_reverse, hlen, List.length_cons, List.length_nil]

/-! ## Claim theorems -/

/-- C3: for equal-length phi/psi/omega inputs of length `n ≥ 1`, a chain that
materialises without an indexing error consists of exactly `3 + 3(n-1)`
3-d points: the 3 seed atoms plus 3 atoms for each of the `n-1` processed
residues. -/
theorem claim3_chain_length (nb : NERFBuilder) (n : Nat)
    (hφ : nb.phi.length = n) (hψ : nb.psi.length = n) (hω : nb.omega.length = n)
    (hn : 1 ≤ n) (out : List Vec3) (h : nb.cartesian_coords = some out) :
    out.length = 3 + 3 * (n - 1) := by
  rw [cartesian_length h, dihedralTriples_length, hφ, hψ, hω]
  simp

/-- Witness for C3 at n = 2 with the default (scalar) bond tables. -/
theorem claim3_chain_length_witness :
    ∃ out, sampleNB2.cartesian_coords = some out ∧ out.length = 3 + 3 * (2 - 1) :=
  ⟨_, rfl, claim3_chain_length sampleNB2 2 rfl rfl rfl (by norm_num) _ rfl⟩

/-- C4 (code bug): with phi/psi/omega each of length 1, the constructor's
`squeeze()` collapses them to 0-dimensional scalars, so `self.phi[1:]`
(nerf.py line 88) raises `IndexError` and `cartesian_coords` fails (`none`)
instead of returning the three seed coordinates unchanged as the claim — and
the spec's n=1 scenario — require. -/
theorem claim4_single_residue (nb : NERFBuilder)
    (hφ : nb.phi.length = 1) (hψ : nb.psi.length = 1) (hω : nb.omega.length = 1) :
    nb.cartesian_coords = none := by
  simp only [NERFBuilder.cartesian_coords, sliceTriples,
    sliceTail_of_length_one hφ, Option.bind_eq_bind, Option.none_bind]

/-- Witness for C4 at the concrete failing input: a builder with length-1
torsion arrays errors instead of returning its seeds. -/
theorem claim4_single_residue_witness : sampleNB1.cartesian_coords = none :=
  claim4_single_residue sampleNB1 rfl rfl rfl

/-- C5: the differentiable-tensor branch of `place_dihedral` computes exactly
the same point as the plain-array branch on equal inputs, and consequently the
torch-mode chain equals the numpy-mode chain for every builder. -/
theorem claim5_dual_mode_equiv :
    (∀ (a b c : Vec3) (θ L τ : ℝ),
      place_dihedral_torch a b c θ L τ = place_dihedral a b c θ L τ) ∧
    ∀ nb : NERFBuilder, nb.cartesian_coords_torch = nb.cartesian_coords :=
  ⟨fun _ _ _ _ _ _ => rfl, fun _ => rfl⟩

/-- C1 (amended): for non-collinear `a, b, c` and nonnegative `bond_length`,
`place_dihedral` returns a point at Euclidean distance exactly `bond_length`
from `c`; consequently every placement step of the chain builder whose context
triple is non-collinear appends an atom at exactly the configured (nonnegative)
bond length from the previously placed atom. For negative `bond_length` the
distance is `-bond_length`, which is what forces the nonnegativity proviso
(see the counterexample). -/
theorem claim1_bond_length :
    (∀ (a b c : Vec3) (θ L τ : ℝ), NonCollinear a b c → 0 ≤ L →
      Vec3.norm (place_dihedral a b c θ L τ - c) = L) ∧
    (∀ (blen bang : BondParam) (i : Nat) (dih : ℝ) (a b c : Vec3)
        (rest out : List Vec3) (L : ℝ),
      placeOne place_dihedral blen bang i dih (c :: b :: a :: rest) = some out →
      NonCollinear a b c → blen.get i = some L → 0 ≤ L →
      ∃ d, out = d :: c :: b :: a :: rest ∧ Vec3.norm (d - c) = L) := by
  constructor
  · exact fun a b c θ L τ hnc hL => place_dihedral_norm a b c θ L τ hnc hL
  · intro blen bang i dih a b c rest out L hpo hnc hlen hL
    obtain ⟨a', b', c', rest', angle, len, hst, hang', hlen', hout⟩ :=
      placeOne_some_elim hpo
    simp only [List.cons.injEq] at hst
    obtain ⟨hc, hb, ha, hr⟩ := hst
    subst hc; subst hb; subst ha; subst hr
    have hLlen : L = len := by
      rw [hlen] at hlen'
      exact Option.some_inj.mp hlen'
    subst hLlen
    exact ⟨place_dihedral a b c angle L dih, hout,
      place_dihedral_norm a b c angle L dih hnc hL⟩

/-- Witness for C1 at the canonical unit-test scenario of the spec:
`a = (1,0,0)`, `b = (0,0,0)`, `c = (0,1,0)`, bond length 1, bond angle π/2,
torsion 0. -/
theorem claim1_bond_length_witness :
    Vec3.norm (place_dihedral ⟨1, 0, 0⟩ ⟨0, 0, 0⟩ ⟨0, 1, 0⟩ (Real.pi / 2) 1 0 -
      ⟨0, 1, 0⟩) = 1 :=
  claim1_bond_length.1 ⟨1, 0, 0⟩ ⟨0, 0, 0⟩ ⟨0, 1, 0⟩ (Real.pi / 2) 1 0
    (fun h => by
      have hz := congrArg Vec3.z h
      norm_num [Vec3.cross] at hz)
    (by norm_num)

/-- Counterexample to C1 exactly as stated ("every bond_length"): with the
non-collinear triple of the spec scenario and `bond_length = -1`, the returned
point lies at distance `1 = |-1|` from `c`, not `-1`. -/
theorem claim1_bond_length_counterexample :
    NonCollinear ⟨1, 0, 0⟩ ⟨0, 0, 0⟩ ⟨0, 1, 0⟩ ∧
    Vec3.norm (place_dihedral ⟨1, 0, 0⟩ ⟨0, 0, 0⟩ ⟨0, 1, 0⟩ (Real.pi / 2) (-1) 0 -
      ⟨0, 1, 0⟩) ≠ -1 := by
  have hnc : NonCollinear ⟨1, 0, 0⟩ ⟨0, 0, 0⟩ ⟨0, 1, 0⟩ := fun h => by
    have hz := congrArg Vec3.z h
    norm_num [Vec3.cross] at hz
  refine ⟨hnc, ?_⟩
  rw [place_dihedral_norm_abs _ _ _ _ _ _ hnc]
  norm_num

/-- C2: in iteration `i` of the build loop, the torsion triple is
`(phi[i+1], psi[i], omega[i])` — phi read one step ahead — and the iteration
appends exactly three atoms through three placement calls, each consuming the
three most recently placed atoms, with the bond table applied in the fixed
order C→N (torsion psi), N→Cα (omega), Cα→C (phi). -/
theorem claim2_residue_order (nb : NERFBuilder) (n i : Nat)
    (hφl : nb.phi.length = n) (hψl : nb.psi.length = n) (hωl : nb.omega.length = n)
    (hi : i + 1 < n) :
    (∀ p q w : ℝ, nb.phi[i + 1]? = some p → nb.psi[i]? = some q →
      nb.omega[i]? = some w → (dihedralTriples nb)[i]? = some (p, q, w)) ∧
    (∀ (φ ψ ω : ℝ) (a b c : Vec3) (rest : List Vec3) (acn lcn anca lnca acac lcac : ℝ),
      nb.bond_angle_c_n.get i = some acn → nb.bond_len_c_n.get i = some lcn →
      nb.bond_angle_n_ca.get i = some anca → nb.bond_len_n_ca.get i = some lnca →
      nb.bond_angle_ca_c.get i = some acac → nb.bond_len_ca_c.get i = some lcac →
      residueStep place_dihedral nb i φ ψ ω (c :: b :: a :: rest) =
        some (place_dihedral c (place_dihedral a b c acn lcn ψ)
            (place_dihedral b c (place_dihedral a b c acn lcn ψ) anca lnca ω)
            acac lcac φ ::
          place_dihedral b c (place_dihedral a b c acn lcn ψ) anca lnca ω ::
          place_dihedral a b c acn lcn ψ :: c :: b :: a :: rest)) := by
  constructor
  · intro p q w hp hq hw
    rw [dihedralTriples]
    refine List.getElem?_zip_eq_some.mpr ⟨?_, ?_⟩
    · rw [List.getElem?_drop, Nat.add_comm]
      exact hp
    · refine List.getElem?_zip_eq_some.mpr ⟨?_, ?_⟩
      · rw [List.getElem?_dropLast, if_pos (by omega : i < nb.psi.length - 1)]
        exact hq
      · rw [List.getElem?_dropLast, if_pos (by omega : i < nb.omega.length - 1)]
        exact hw
  · intro φ ψ ω a b c rest acn lcn anca lnca acac lcac h1 h2 h3 h4 h5 h6
    simp only [residueStep]
    rw [placeOne_cons place_dihedral _ _ i ψ a b c rest h1 h2]
    simp only [Option.bind_eq_bind, Option.some_bind]
    rw [placeOne_cons place_dihedral _ _ i ω b c _ (a :: rest) h3 h4]
    simp only [Option.some_bind]
    rw [placeOne_cons place_dihedral _ _ i φ c _ _ (b :: a :: rest) h5 h6]

/-- Witness for C2 on the three-residue builder `sampleNB3` at iteration 1:
the triple is `(phi[2], psi[1], omega[1]) = (3, 5, 8)` and the step appends
three placed atoms. -/
theorem claim2_residue_order_witness :
    (dihedralTriples sampleNB3)[1]? = some (3, 5, 8) ∧
    ∃ d1 d2 d3, residueStep place_dihedral sampleNB3 1 3 5 8
        [C_INIT, CA_INIT, N_INIT] = some [d3, d2, d1, C_INIT, CA_INIT, N_INIT] := by
  have h := claim2_residue_order sampleNB3 3 1 rfl rfl rfl (by norm_num)
  exact ⟨h.1 3 5 8 rfl rfl rfl,
    _, _, _, h.2 3 5 8 N_INIT CA_INIT C_INIT [] _ _ _ _ _ _ rfl rfl rfl rfl rfl rfl⟩

/-- Counterexample to C6 as stated: with phi of length 3 but psi/omega of
length 2 (and the default scalar bond tables), `cartesian_coords` does not
fail — python `zip` silently truncates the iteration instead of indexing out
of range. -/
theorem claim6_counterexample :
    sampleNBUneq.phi.length ≠ sampleNBUneq.psi.length ∧
    sampleNBUneq.cartesian_coords ≠ none := by
  constructor
  · decide
  · exact Option.ne_none_iff_isSome.mpr rfl

/-- C6 (amended): torsion-length shape mismatches are not pre-validated, and
the failure mode depends on the shape. A per-residue bond-table sequence
shorter than the number of processed residues makes `cartesian_coords` fail
with the index error of its first out-of-range access. A torsion sequence of
length exactly 1 also makes it fail, with the `IndexError` raised when the
squeezed-to-0-d array is sliced, regardless of the bond tables. But unequal
torsion lengths as such do not fail: when no sequence has length 1, the zip
silently truncates to the shortest effective length and (with the default
scalar bond tables) the chain materialises with `3 + 3·min` atoms. -/
theorem claim6_shape_failures (nb : NERFBuilder) :
    (∀ l : List ℝ, l.length < (dihedralTriples nb).length →
      (nb.bond_len_c_n = .perResidue l ∨ nb.bond_len_n_ca = .perResidue l ∨
        nb.bond_len_ca_c = .perResidue l ∨ nb.bond_angle_c_n = .perResidue l ∨
        nb.bond_angle_n_ca = .perResidue l ∨ nb.bond_angle_ca_c = .perResidue l) →
      nb.cartesian_coords = none) ∧
    ((nb.phi.length = 1 ∨ nb.psi.length = 1 ∨ nb.omega.length = 1) →
      nb.cartesian_coords = none) ∧
    (nb.phi.length ≠ 1 → nb.psi.length ≠ 1 → nb.omega.length ≠ 1 →
      ScalarTables nb →
      ∃ out, nb.cartesian_coords = some out ∧
        out.length = 3 + 3 * min (nb.phi.length - 1)
          (min (nb.psi.length - 1) (nb.omega.length - 1))) := by
  refine ⟨?_, ?_, ?_⟩
  · intro l hshort htab
    cases hc : nb.cartesian_coords with
    | none => rfl
    | some out =>
      exfalso
      simp only [NERFBuilder.cartesian_coords, Option.bind_eq_bind,
        Option.bind_eq_some, Option.some_inj] at hc
      obtain ⟨ts, hts, out', hout, -⟩ := hc
      obtain rfl := sliceTriples_some_elim hts
      have hlook := buildLoop_some_lookups 0 (dihedralTriples nb) _ out' hout
        l.length hshort
      have hnone : (BondParam.perResidue l).get l.length = none := by
        simp [BondParam.get, List.get?_eq_getElem?, List.getElem?_eq_none_iff]
      rcases htab with h | h | h | h | h | h <;> rw [h] at hlook <;>
        simp [hnone] at hlook
  · rintro (h | h | h)
    · simp only [NERFBuilder.cartesian_coords, sliceTriples,
        sliceTail_of_length_one h, Option.bind_eq_bind, Option.none_bind]
    · cases hphi : sliceTail nb.phi with
      | none =>
        simp only [NERFBuilder.cartesian_coords, sliceTriples, hphi,
          Option.bind_eq_bind, Option.none_bind]
      | some p =>
        simp only [NERFBuilder.cartesian_coords, sliceTriples, hphi,
          sliceDropLast_of_length_one h, Option.bind_eq_bind, Option.some_bind,
          Option.none_bind]
    · cases hphi : sliceTail nb.phi with
      | none =>
        simp only [NERFBuilder.cartesian_coords, sliceTriples, hphi,
          Option.bind_eq_bind, Option.none_bind]
      | some p =>
        cases hpsi : sliceDropLast nb.psi with
        | none =>
          simp only [NERFBuilder.cartesian_coords, sliceTriples, hphi, hpsi,
            Option.bind_eq_bind, Option.some_bind, Option.none_bind]
        | some q =>
          simp only [NERFBuilder.cartesian_coords, sliceTriples, hphi, hpsi,
            sliceDropLast_of_length_one h, Option.bind_eq_bind,
            Option.some_bind, Option.none_bind]
  · intro h1 h2 h3 hs
    have hts := sliceTriples_of_lengths h1 h2 h3
    obtain ⟨out, hout, hlen⟩ := @buildLoop_scalar_some place_dihedral nb hs 0
      (dihedralTriples nb) [nb.c_init, nb.ca_init, nb.n_init] (by simp)
    refine ⟨out.reverse, ?_, ?_⟩
    · simp only [NERFBuilder.cartesian_coords, hts, Option.bind_eq_bind,
        Option.some_bind, hout]
    · rw [List.length_reverse, hlen, dihedralTriples_length]
      simp

/-- Witness for the amended C6: the empty per-residue table fails with the
index error; a length-1 torsion input fails from the 0-d slice; unequal
torsion lengths 3/2/2 succeed with the truncated chain of 6 atoms. -/
theorem claim6_shape_failures_witness :
    sampleNBShort.cartesian_coords = none ∧
    sampleNB1.cartesian_coords = none ∧
    ∃ out, sampleNBUneq.cartesian_coords = some out ∧ out.length = 6 := by
  refine ⟨(claim6_shape_failures sampleNBShort).1 [] (by decide) (Or.inl rfl),
    (claim6_shape_failures sampleNB1).2.1 (Or.inl rfl), ?_⟩
  obtain ⟨out, hout, hlen⟩ := (claim6_shape_failures sampleNBUneq).2.2
    (by decide) (by decide) (by decide)
    ⟨⟨_, rfl⟩, ⟨_, rfl⟩, ⟨_, rfl⟩, ⟨_, rfl⟩, ⟨_, rfl⟩, ⟨_, rfl⟩⟩
  exact ⟨out, hout, by rw [hlen]; rfl⟩

theorem buildLoop_eq_of_bonds_eq {place : Vec3 → Vec3 → Vec3 → ℝ → ℝ → ℝ → Vec3}
    {nb nb2 : NERFBuilder}
    (h1 : nb.bond_len_c_n = nb2.bond_len_c_n)
    (h2 : nb.bond_len_n_ca = nb2.bond_len_n_ca)
    (h3 : nb.bond_len_ca_c = nb2.bond_len_ca_c)
    (h4 : nb.bond_angle_c_n = nb2.bond_angle_c_n)
    (h5 : nb.bond_angle_n_ca = nb2.bond_angle_n_ca)
    (h6 : nb.bond_angle_ca_c = nb2.bond_angle_ca_c) :
    ∀ (k : Nat) (ts : List (ℝ × ℝ × ℝ)) (state : List Vec3),
      buildLoop place nb k ts state = buildLoop place nb2 k ts state
  | _, [], _ => rfl
  | k, (φ, ψ, ω) :: rest, state => by
    have hstep : residueStep place nb k φ ψ ω state =
        residueStep place nb2 k φ ψ ω state := by
      simp only [residueStep, h1, h2, h3, h4, h5, h6]
    simp only [buildLoop, Option.bind_eq_bind, hstep]
    cases residueStep place nb2 k φ ψ ω state with
    | none => rfl
    | some s =>
      simpa using buildLoop_eq_of_bonds_eq h1 h2 h3 h4 h5 h6 (k + 1) rest s

/-- C7: the builder never reads phi[0], psi[n-1] or omega[n-1]: two input
sets of length n that agree everywhere except possibly at those three boundary
slots (and share bond tables and seeds) produce identical coordinate
output. -/
theorem claim7_boundary_slots (phi psi omega phi2 psi2 omega2 : List ℝ)
    (blcn blnca blcac bacn banca bacac : BondParam) (v1 v2 v3 : Vec3) (n : Nat)
    (hφ : phi.length = n) (hφ2 : phi2.length = n)
    (hψ : psi.length = n) (hψ2 : psi2.length = n)
    (hω : omega.length = n) (hω2 : omega2.length = n)
    (hp : ∀ i, i ≠ 0 → phi[i]? = phi2[i]?)
    (hq : ∀ i, i ≠ n - 1 → psi[i]? = psi2[i]?)
    (hw : ∀ i, i ≠ n - 1 → omega[i]? = omega2[i]?) :
    NERFBuilder.cartesian_coords
        ⟨phi, psi, omega, blcn, blnca, blcac, bacn, banca, bacac, v1, v2, v3⟩ =
      NERFBuilder.cartesian_coords
        ⟨phi2, psi2, omega2, blcn, blnca, blcac, bacn, banca, bacac, v1, v2, v3⟩ := by
  have hdrop : phi.drop 1 = phi2.drop 1 := by
    apply List.ext_get?
    intro i
    simp only [List.get?_eq_getElem?, List.getElem?_drop]
    exact hp (1 + i) (by omega)
  have hpsiD : psi.dropLast = psi2.dropLast := by
    apply List.ext_get?
    intro i
    simp only [List.get?_eq_getElem?, List.getElem?_dropLast, hψ, hψ2]
    by_cases hi : i < n - 1
    · rw [if_pos hi, if_pos hi]
      exact hq i (by omega)
    · rw [if_neg hi, if_neg hi]
  have homD : omega.dropLast = omega2.dropLast := by
    apply List.ext_get?
    intro i
    simp only [List.get?_eq_getElem?, List.getElem?_dropLast, hω, hω2]
    by_cases hi : i < n - 1
    · rw [if_pos hi, if_pos hi]
      exact hw i (by omega)
    · rw [if_neg hi, if_neg hi]
  by_cases hn1 : n = 1
  · have e1 : sliceTail phi = none := sliceTail_of_length_one (by rw [hφ, hn1])
    have e2 : sliceTail phi2 = none := sliceTail_of_length_one (by rw [hφ2, hn1])
    simp only [NERFBuilder.cartesian_coords, sliceTriples, e1, e2,
      Option.bind_eq_bind, Option.none_bind]
  · have d1 : sliceTail phi = some (phi.drop 1) :=
      sliceTail_of_length_ne_one (by rw [hφ]; exact hn1)
    have d1' : sliceTail phi2 = some (phi2.drop 1) :=
      sliceTail_of_length_ne_one (by rw [hφ2]; exact hn1)
    have d2 : sliceDropLast psi = some psi.dropLast :=
      sliceDropLast_of_length_ne_one (by rw [hψ]; exact hn1)
    have d2' : sliceDropLast psi2 = some psi2.dropLast :=
      sliceDropLast_of_length_ne_one (by rw [hψ2]; exact hn1)
    have d3 : sliceDropLast omega = some omega.dropLast :=
      sliceDropLast_of_length_ne_one (by rw [hω]; exact hn1)
    have d3' : sliceDropLast omega2 = some omega2.dropLast :=
      sliceDropLast_of_length_ne_one (by rw [hω2]; exact hn1)
    simp only [NERFBuilder.cartesian_coords, sliceTriples, d1, d1', d2, d2',
      d3, d3', Option.bind_eq_bind, Option.some_bind]
    rw [hdrop, hpsiD, homD]
    rw [@buildLoop_eq_of_bonds_eq place_dihedral
      ⟨phi, psi, omega, blcn, blnca, blcac, bacn, banca, bacac, v1, v2, v3⟩
      ⟨phi2, psi2, omega2, blcn, blnca, blcac, bacn, banca, bacac, v1, v2, v3⟩
      rfl rfl rfl rfl rfl rfl 0
      ((phi2.drop 1).zip (psi2.dropLast.zip omega2.dropLast)) [v3, v2, v1]]

/-- Witness for C7: two concrete two-residue builders whose phi[0], psi[1]
and omega[1] differ (9 versus 0) while everything else coincides. -/
theorem claim7_boundary_slots_witness :
    sampleNBBoundA.cartesian_coords = sampleNBBoundB.cartesian_coords :=
  claim7_boundary_slots [9, 1] [2, 9] [3, 9] [0, 1] [2, 0] [3, 0]
    (.scalar C_N_LENGTH) (.scalar N_CA_LENGTH) (.scalar CA_C_LENGTH)
    (.scalar (115 / 180 * Real.pi)) (.scalar (121 / 180 * Real.pi))
    (.scalar (109 / 180 * Real.pi))
    N_INIT CA_INIT C_INIT 2 rfl rfl rfl rfl rfl rfl
    (fun i hi => match i, hi with
      | 0, hi => absurd rfl hi
      | i + 1, _ => rfl)
    (fun i hi => match i, hi with
      | 0, _ => rfl
      | 1, hi => absurd rfl hi
      | i + 2, _ => rfl)
    (fun i hi => match i, hi with
      | 0, _ => rfl
      | 1, hi => absurd rfl hi
      | i + 2, _ => rfl)

theorem vsum_cons (v : Vec3) (l : List Vec3) : vsum (v :: l) = v + vsum l := rfl

theorem vsum_map_sub (c : Vec3) : ∀ l : List Vec3,
    vsum (l.map (fun v => v - c)) = vsum l - (l.length : ℝ) • c
  | [] => by ext <;> simp [vsum]
  | v :: l => by
    have ih := vsum_map_sub c l
    simp only [List.map_cons, vsum_cons, List.length_cons, ih]
    ext <;> push_cast <;> simp <;> ring

theorem centroid_map_sub_centroid {l : List Vec3} (hl : l ≠ []) :
    centroid (l.map (fun v => v - centroid l)) = 0 := by
  have hn : (l.length : ℝ) ≠ 0 := by
    have := List.length_pos.mpr hl
    positivity
  simp only [centroid, List.length_map, vsum_map_sub]
  ext <;> simp <;> field_simp <;> ring

/-- C9: `centered_cartesian_coords` is `cartesian_coords` minus its per-axis
mean, and the per-axis mean (centroid) of the centered output is the zero
vector. -/
theorem claim9_centering (nb : NERFBuilder) (l : List Vec3)
    (h : nb.cartesian_coords = some l) :
    nb.centered_cartesian_coords = some (l.map (fun v => v - centroid l)) ∧
    centroid (l.map (fun v => v - centroid l)) = 0 := by
  constructor
  · rw [NERFBuilder.centered_cartesian_coords, h, Option.map_some']
  · apply centroid_map_sub_centroid
    intro hnil
    have hlen := cartesian_length h
    rw [hnil] at hlen
    simp only [List.length_nil] at hlen
    omega

/-- Witness for C9 on the two-residue builder, whose chain materialises. -/
theorem claim9_centering_witness :
    ∃ l, sampleNB2.cartesian_coords = some l ∧
      sampleNB2.centered_cartesian_coords =
        some (l.map (fun v => v - centroid l)) ∧
      centroid (l.map (fun v => v - centroid l)) = 0 := by
  obtain ⟨h1, h2⟩ := claim9_centering sampleNB2 _ rfl
  exact ⟨_, rfl, h1, h2⟩

theorem collectRows_get? {ur : Bool} :
    ∀ {rs : List ResidueIC} {out : List (List FloatVal)},
      collectRows ur rs = some out →
      ∀ (i : Nat) (r : ResidueIC), rs[i]? = some r →
        ∃ row, residueRow ur r = some row ∧ out[i]? = some row
  | [], out, h, i, r, hr => by simp at hr
  | ric :: rs, out, h, i, r, hr => by
    simp only [collectRows, Option.bind_eq_bind, Option.bind_eq_some,
      Option.some_inj] at h
    obtain ⟨row, hrow, rest, hrest, hout⟩ := h
    match i, hr with
    | 0, hr =>
      rw [List.getElem?_cons_zero] at hr
      obtain rfl : ric = r := Option.some_inj.mp hr
      exact ⟨row, hrow, by rw [← hout, List.getElem?_cons_zero]⟩
    | i + 1, hr =>
      rw [List.getElem?_cons_succ] at hr
      obtain ⟨row', hrow', hrest'⟩ := collectRows_get? hrest i r hr
      exact ⟨row', hrow', by rw [← hout, List.getElem?_cons_succ]; exact hrest'⟩

theorem residueRow_some_elim {ric : ResidueIC} {row : List FloatVal}
    (h : residueRow true ric = some row) :
    row = ric.dists ++ ric.angs.map (Option.map (fun d => d / 180 * Real.pi)) := by
  simp only [residueRow, if_true] at h
  split at h
  · exact (Option.some_inj.mp h).symm
  · exact absurd h (by simp)

theorem canonical_some_elim {mc rb ur : Bool} {residues : List ResidueIC}
    {table : List (List FloatVal)}
    (h : canonical_distances_and_dihedrals mc rb ur residues = some table) :
    mc = false ∧ rb = true ∧
    ∃ values, collectRows ur residues = some values ∧
      table = values.map (fun row => row.map nanToNum) := by
  cases mc
  · cases rb
    · simp [canonical_distances_and_dihedrals] at h
    · refine ⟨rfl, rfl, ?_⟩
      simp only [canonical_distances_and_dihedrals, Bool.false_eq_true,
        if_false, Bool.not_true, Option.bind_eq_bind, Option.bind_eq_some,
        Option.some_inj] at h
      obtain ⟨values, hv, ht⟩ := h
      exact ⟨values, hv, ht.symm⟩
  · simp [canonical_distances_and_dihedrals] at h

/-- C8 (amended): for every structure accepted in radians mode, each residue
row of the returned table holds the queried distances followed by the angles;
a defined library angle of `a` degrees comes back in radians as
`a / 180 * π`, but an undefined (NaN) boundary angle comes back as `0`, since
`np.nan_to_num` replaces NaN before the table is returned. -/
theorem claim8_radians_and_zero (mc rb : Bool) (residues : List ResidueIC)
    (table : List (List FloatVal))
    (h : canonical_distances_and_dihedrals mc rb true residues = some table)
    (i : Nat) (ric : ResidueIC) (hric : residues[i]? = some ric) :
    ∃ row, table[i]? = some row ∧
      (∀ (j : Nat) (a : ℝ), ric.angs[j]? = some (some a) →
        row[ric.dists.length + j]? = some (some (a / 180 * Real.pi))) ∧
      (∀ j : Nat, ric.angs[j]? = some none →
        row[ric.dists.length + j]? = some (some 0)) := by
  obtain ⟨-, -, values, hv, htab⟩ := canonical_some_elim h
  obtain ⟨row0, hrow0, hvi⟩ := collectRows_get? hv i ric hric
  have hsh := residueRow_some_elim hrow0
  subst hsh
  subst htab
  refine ⟨(ric.dists ++ ric.angs.map (Option.map fun d => d / 180 * Real.pi)).map
    nanToNum, ?_, ?_, ?_⟩
  · rw [List.getElem?_map, hvi, Option.map_some']
  · intro j a hj
    rw [List.map_append,
      List.getElem?_append_right (by simp : (ric.dists.map nanToNum).length ≤ _)]
    simp only [List.length_map, Nat.add_sub_cancel_left, List.getElem?_map, hj,
      Option.map_some', nanToNum, Option.getD_some]
  · intro j hj
    rw [List.map_append,
      List.getElem?_append_right (by simp : (ric.dists.map nanToNum).length ≤ _)]
    simp only [List.length_map, Nat.add_sub_cancel_left, List.getElem?_map, hj,
      Option.map_some', Option.map_none', nanToNum, Option.getD_none]

theorem canonical_sampleRIC_eq :
    canonical_distances_and_dihedrals false true true [sampleRIC] =
      some [[some 1.32, some 0, some (0 / 180 * Real.pi), some (0 / 180 * Real.pi),
        some (0 / 180 * Real.pi)]] := by
  have hok : residueRow true sampleRIC =
      some [some 1.32, none, some (0 / 180 * Real.pi), some (0 / 180 * Real.pi),
        some (0 / 180 * Real.pi)] := by
    simp only [residueRow, sampleRIC, if_pos rfl]
    rw [if_pos]
    · rfl
    · intro a ha v hv
      have hπ := Real.pi_nonneg
      have h0 : (0 : ℝ) / 180 * Real.pi = 0 := by norm_num
      simp only [List.map_cons, List.map_nil, Option.map_none',
        Option.map_some'] at ha
      fin_cases ha
      · simp at hv
      all_goals
        rw [Option.mem_def, Option.some_inj] at hv
        subst hv
        rw [h0]
        constructor <;> linarith
  unfold canonical_distances_and_dihedrals collectRows
  rw [hok]
  rfl

/-- Counterexample to C8 as stated: for an accepted single-chain input whose
first residue has undefined (NaN) phi, the returned table carries the defined
value `0` at that slot — `np.nan_to_num` has replaced the NaN — so NaN is not
substituted in the returned table. -/
theorem claim8_counterexample :
    ∃ table row,
      canonical_distances_and_dihedrals false true true [sampleRIC] = some table ∧
      table[0]? = some row ∧ row[1]? = some (some 0) ∧
      (some (0 : ℝ) : FloatVal) ≠ none := by
  refine ⟨_, _, canonical_sampleRIC_eq, rfl, rfl, by simp⟩

/-- Witness for the amended C8 on the concrete one-residue input: the defined
angle slot comes back as `0 / 180 * π` radians, the NaN phi slot as `0`. -/
theorem claim8_radians_and_zero_witness :
    ∃ table row,
      canonical_distances_and_dihedrals false true true [sampleRIC] = some table ∧
      table[0]? = some row ∧
      row[sampleRIC.dists.length + 1]? = some (some (0 / 180 * Real.pi)) ∧
      row[sampleRIC.dists.length + 0]? = some (some 0) := by
  obtain ⟨row, h1, h2, h3⟩ := claim8_radians_and_zero false true [sampleRIC] _
    canonical_sampleRIC_eq 0 sampleRIC rfl
  exact ⟨_, row, canonical_sampleRIC_eq, h1, h2 1 0 rfl, h3 0 rfl⟩

/-- C10: `p_sample` unconditionally rebinds `t_index` from the unique value of
`t` before any use (sampling.py line 40), so with the denoising model, the
schedule computation and the gaussian draw held fixed as explicit inputs, its
result is independent of the `t_index` argument. -/
theorem claim10_t_index_dead (compute_alphas : List ℝ → AlphaBetaValues)
    (model : Tensor3 → List ℤ → List (List ℝ) → Tensor3)
    (x : Tensor3) (t : List ℤ) (seq_lens : List Nat) (i1 i2 : ℤ)
    (betas : List ℝ) (noise : Tensor3) :
    p_sample compute_alphas model x t seq_lens i1 betas noise =
      p_sample compute_alphas model x t seq_lens i2 betas noise := rfl
